import Mathlib

/-!
# Verification of the gitupdt update-detection and reconciliation logic

Shallow embedding of `gitupdt/gitupdt.py`.  The third-party
`packaging.version` parser is modelled abstractly: a parse function
`String → Option V` into a linearly ordered type `V` of parsed versions
(`none` models a raised `InvalidVersion`).  Python's stable `list.sort`
with `reverse=True` is modelled by `List.insertionSort` with the
descending relation, which is likewise a stable sort.  Git, the file
system and the interactive prompts are modelled by explicit state
parameters recording their observable outcomes.
-/

namespace Gitupdt

/-- Embedding of `get_sorted_tags` (`gitupdt.py` lines 13-27): keep the tag
names whose version parse succeeds, paired with the parsed version, sort
the pairs by version descending with a stable sort, and return the names. -/
def get_sorted_tags {V : Type} [LinearOrder V] (parse : String → Option V)
    (all_tags : List String) : List String :=
  let valid_tags := all_tags.filterMap fun t => (parse t).map fun v => (t, v)
  (List.insertionSort (fun a b : String × V => b.2 ≤ a.2) valid_tags).map Prod.fst

/-- Split a character list at the dots, for the concrete version parser. -/
def splitDots : List Char → List (List Char)
  | [] => [[]]
  | c :: cs =>
    let rest := splitDots cs
    if c = '.' then [] :: rest
    else
      match rest with
      | [] => [[c]]
      | g :: gs => (c :: g) :: gs

/-- Read a nonempty list of decimal digits as a natural number. -/
def natOfDigits (cs : List Char) : Option Nat :=
  match cs with
  | [] => none
  | _ =>
    cs.foldl
      (fun acc c =>
        match acc with
        | some n => if c.isDigit then some (n * 10 + (c.toNat - 48)) else none
        | none => none)
      (some 0)

/-- A concrete instance of the abstract version parser, used to evaluate the
model on concrete repositories: accepts exactly dotted triples of numerals
such as "1.2.0" and encodes them into a single natural number preserving
the lexicographic order for components below 1000. -/
def parseVer3 (s : String) : Option Nat :=
  match (splitDots s.data).mapM natOfDigits with
  | some [a, b, c] => some (a * 1000000 + b * 1000 + c)
  | _ => none

/-- Git subcommands issued by `perform_update` through `repo.git`. -/
inductive GitCmd : Type
  | checkout (target : String)
  | fetch
  | resetHard (ref : String)
  | pull
deriving DecidableEq

/-- Embedding of the git-operation portion of `perform_update`
(`gitupdt.py` lines 242-277), as the list of git commands that execute
successfully for a given selection.  `originResetOk` records whether the
`try` block of the checkout/reset case (fetch followed by
`reset --hard origin/<target>`) succeeds; when it raises, the `except`
branch resets to the target itself.  An unknown action returns without
issuing any command. -/
def performUpdateGitOps (action target : String) (reset originResetOk : Bool) :
    List GitCmd :=
  if action = "checkout" then
    if reset then
      if originResetOk then
        [GitCmd.checkout target, GitCmd.fetch, GitCmd.resetHard ("origin/" ++ target)]
      else
        [GitCmd.checkout target, GitCmd.resetHard target]
    else [GitCmd.checkout target]
  else if action = "pull" then
    if reset then [GitCmd.fetch, GitCmd.resetHard ("origin/" ++ target)]
    else [GitCmd.pull]
  else if action = "checkout_pull" then
    if reset then [GitCmd.checkout target, GitCmd.resetHard ("origin/" ++ target)]
    else [GitCmd.checkout target, GitCmd.pull]
  else []

/-- Observable state of the two dependency manifests at one snapshot
point.  For each file, `none` models an absent file, `some none` a file
that is present but raises on read or parse, and `some (some entries)`
a readable file with its dependency entries (for `pyproject.toml`, the
`project.dependencies` array; for `requirements.txt`, its lines). -/
structure ManifestState where
  pyprojectDeps : Option (Option (List String))
  requirementsLines : Option (Option (List String))
deriving DecidableEq

/-- The before-snapshot of `pyproject.toml` dependencies
(`gitupdt.py` lines 216-229): taken only when `uv` is on the PATH and the
file is present and readable, and sorted for order-independent
comparison; otherwise `before_deps` stays `None`. -/
def snapshotDeps (uvInstalled : Bool) (fs : ManifestState) : Option (List String) :=
  if uvInstalled then
    match fs.pyprojectDeps with
    | some (some deps) => some (deps.insertionSort fun a b => a ≤ b)
    | _ => none
  else none

/-- The after-snapshot of `pyproject.toml` dependencies
(`gitupdt.py` lines 286-293): any read or parse failure leaves
`after_deps` as `None`. -/
def snapshotDepsAfter (fs : ManifestState) : Option (List String) :=
  match fs.pyprojectDeps with
  | some (some deps) => some (deps.insertionSort fun a b => a ≤ b)
  | _ => none

/-- A snapshot of `requirements.txt` lines (`gitupdt.py` lines 232-239 and
315-321): initialised to the empty list, so an absent or unreadable file
is recorded as empty rather than skipped. -/
def snapshotReqs (fs : ManifestState) : List String :=
  match fs.requirementsLines with
  | some (some lines) => lines
  | _ => []

/-- Which manifest comparisons ran and which reported a change during one
`perform_update` call. -/
structure UpdateReport where
  pyprojectCompared : Bool
  pyprojectChanged : Bool
  reqsCompared : Bool
  reqsChanged : Bool
deriving DecidableEq

/-- Embedding of the manifest diff-reporting portion of `perform_update`
(`gitupdt.py` lines 216-239 and 283-336).  `uvSyncChoice` is the value
returned by `install_requirements_uv` when the pyproject comparison
reports a change: unless it is `"requirements"`, `perform_update` returns
before the `requirements.txt` comparison. -/
def dependencyDiff (uvInstalled : Bool) (before after : ManifestState)
    (uvSyncChoice : Option String) : UpdateReport :=
  match snapshotDeps uvInstalled before with
  | none =>
    { pyprojectCompared := false, pyprojectChanged := false,
      reqsCompared := true,
      reqsChanged := decide (snapshotReqs before ≠ snapshotReqs after) }
  | some before_deps =>
    let changed : Bool :=
      match snapshotDepsAfter after with
      | some after_deps => decide (before_deps ≠ after_deps)
      | none => false
    if changed then
      if uvSyncChoice = some "requirements" then
        { pyprojectCompared := true, pyprojectChanged := true,
          reqsCompared := true,
          reqsChanged := decide (snapshotReqs before ≠ snapshotReqs after) }
      else
        { pyprojectCompared := true, pyprojectChanged := true,
          reqsCompared := false, reqsChanged := false }
    else
      { pyprojectCompared := true, pyprojectChanged := false,
        reqsCompared := true,
        reqsChanged := decide (snapshotReqs before ≠ snapshotReqs after) }

/-- The stages of `perform_update` after a selection was made. -/
inductive UpdateStep : Type
  | gitAction
  | gcAuto
  | pyprojectDiff
  | reqsDiff
deriving DecidableEq

/-- Control flow of `perform_update` after the git action starts
(`gitupdt.py` lines 241-336): the list of stages reached, paired with
`true` when the call returns normally and `false` when an exception
escapes it.  `repo.git.gc('--auto')` (line 281) is not guarded, so when
it fails (`gcOk = false`) the exception escapes before either manifest
comparison stage runs. -/
def perform_update_steps (actionOk gcOk uvInstalled : Bool)
    (before after : ManifestState) (uvSyncChoice : Option String) :
    List UpdateStep × Bool :=
  if actionOk = false then ([UpdateStep.gitAction], false)
  else if gcOk = false then ([UpdateStep.gitAction, UpdateStep.gcAuto], false)
  else
    let rep := dependencyDiff uvInstalled before after uvSyncChoice
    if rep.reqsCompared then
      ([UpdateStep.gitAction, UpdateStep.gcAuto, UpdateStep.pyprojectDiff,
        UpdateStep.reqsDiff], true)
    else
      ([UpdateStep.gitAction, UpdateStep.gcAuto, UpdateStep.pyprojectDiff], true)

/-- The `try`/`except` wrapper of `check_remote_updates`
(`gitupdt.py` lines 451 and 554-555): an exception escaping
`perform_update` is caught and printed, so the surrounding run always
terminates normally. -/
def check_remote_updates_catch (run : List UpdateStep × Bool) :
    List UpdateStep × Bool :=
  (run.1, true)

/-- Repository state consumed by the divergence detector, as observed
through git: HEAD shape, the active branch and its tracking reference,
the behind count against the tracking reference, the tags pointing at
HEAD, the full tag list, and the remote default branch with HEAD's behind
count against it (`none` models a failed lookup). -/
structure RepoState where
  isDetached : Bool
  activeBranch : String
  hasTracking : Bool
  trackingName : String
  behindTracking : Nat
  headTags : List String
  allTags : List String
  defaultBranch : Option String
  behindDefault : Option Nat
deriving DecidableEq

/-- The update-candidate dictionary returned by `has_remote_updates`. -/
structure Candidate where
  kind : String
  current : String
  latest : String
  behindCount : Option Nat
  message : String
deriving DecidableEq

/-- Current-tag selection inside `has_remote_updates`
(`gitupdt.py` lines 378-386): among the tags pointing at HEAD, prefer the
one named like the active branch when HEAD is on a branch and such a tag
exists, else the first one. -/
def detectorCurrentTag (isDetached : Bool) (activeBranch : String)
    (headTags : List String) : Option String :=
  if headTags.isEmpty then none
  else if isDetached = false ∧ activeBranch ∈ headTags then some activeBranch
  else headTags.head?

/-- Current-tag selection inside `check_remote_updates`
(`gitupdt.py` lines 473-478): when HEAD is on a branch the branch name is
used directly, without checking that it occurs among the tags pointing at
HEAD. -/
def menuCurrentTag (activeBranch : Option String) (headTags : List String) :
    Option String :=
  if headTags.isEmpty then none
  else
    match activeBranch with
    | some name => some name
    | none => headTags.head?

/-- The current-tag disambiguation rule as the spec words it, for
comparison with both code paths: prefer the tag whose name equals the
active branch name if such a tag exists among the HEAD-pointing tags,
else take the first found. -/
def specCurrentTagRule (isDetached : Bool) (activeBranch : String)
    (headTags : List String) : Option String :=
  if headTags.isEmpty then none
  else if isDetached = false ∧ activeBranch ∈ headTags then some activeBranch
  else headTags.head?

/-- The default-branch category of `has_remote_updates`
(`gitupdt.py` lines 403-425): requires the remote default branch to be
advertised and the commit count to be computable, and emits a candidate
only for a positive count. -/
def defaultBranchCheck (st : RepoState) : Option Candidate :=
  match st.defaultBranch with
  | some db =>
    match st.behindDefault with
    | some b =>
      if 0 < b then
        some ⟨"default_branch", "HEAD", db, some b,
          db ++ " is " ++ toString b ++ " commits ahead"⟩
      else none
    | none => none
  | none => none

/-- Embedding of `has_remote_updates` (`gitupdt.py` lines 338-430): the
branch category is checked first and returns immediately when the active
branch is behind its tracking reference; otherwise the tag category is
checked, returning when the newest valid tag strictly exceeds the current
tag (a parse failure of either falls through); otherwise the
default-branch category is checked.  The function returns at most one
candidate. -/
def has_remote_updates {V : Type} [LinearOrder V] (parse : String → Option V)
    (st : RepoState) : Option Candidate :=
  if st.isDetached = false ∧ st.hasTracking = true ∧ 0 < st.behindTracking then
    some ⟨"branch", st.activeBranch, st.trackingName, some st.behindTracking,
      toString st.behindTracking ++ " commits behind"⟩
  else
    let currentTag := detectorCurrentTag st.isDetached st.activeBranch st.headTags
    let latestTag := (get_sorted_tags parse st.allTags).head?
    match latestTag, currentTag with
    | some lt, some ct =>
      match parse lt, parse ct with
      | some vl, some vc =>
        if vc < vl then some ⟨"tag", ct, lt, none, ct ++ " -> " ++ lt⟩
        else defaultBranchCheck st
      | _, _ => defaultBranchCheck st
    | _, _ => defaultBranchCheck st

/-- An entry of the interactive menu built by `check_remote_updates`. -/
structure MenuChoice where
  title : String
  action : String
  target : String
deriving DecidableEq

/-- The tracked-branch menu entry of `check_remote_updates`
(`gitupdt.py` lines 505-517): present only when HEAD is on a branch with
a tracking reference, and then when the branch is behind or reset mode is
on; the behind count decorates the title only when positive. -/
def branchPullChoice (activeBranch : Option String) (hasTracking : Bool)
    (behind : Nat) (reset : Bool) : Option MenuChoice :=
  match activeBranch with
  | some name =>
    if hasTracking then
      if 0 < behind ∨ reset then
        some
          { title :=
              if 0 < behind then
                "★ Pull " ++ name ++ " (" ++ toString behind ++ " commits behind)"
              else "★ Pull " ++ name,
            action := "pull", target := name }
      else none
    else none
  | none => none

/-- The tag portion of the menu built by `check_remote_updates`
(`gitupdt.py` lines 519-539): the newest valid tag first (suffixed when
strictly newer than the current tag), then the tags among the first ten
of the descending order that differ from the newest. -/
def menuTagChoices (isNewer : Bool) (sorted_tags : List String) :
    List MenuChoice :=
  match sorted_tags with
  | [] => []
  | latest :: _ =>
    { title := latest ++ (if isNewer then " (Latest)" else ""),
      action := "checkout", target := latest }
      :: ((sorted_tags.take 10).filter fun t => decide (t ≠ latest)).map
          fun t => { title := t, action := "checkout", target := t }

/-- The name part of the valid-tag pair list is the parseable subset of the
input, in input order. -/
theorem map_fst_validTags {V : Type} (parse : String → Option V) (l : List String) :
    (l.filterMap fun t => (parse t).map fun v => (t, v)).map Prod.fst
      = l.filter fun t => (parse t).isSome := by
  induction l with
  | nil => rfl
  | cons t l ih =>
    cases h : parse t <;>
      simp [List.filterMap_cons, h, List.filter_cons, ih]

/-- Every member of the valid-tag pair list really is a successful parse. -/
theorem mem_validTags {V : Type} {parse : String → Option V} {l : List String}
    {x : String × V} (hx : x ∈ l.filterMap fun t => (parse t).map fun v => (t, v)) :
    parse x.1 = some x.2 := by
  rcases List.mem_filterMap.1 hx with ⟨t, _, ht⟩
  rcases Option.map_eq_some'.1 ht with ⟨v, hv, hxv⟩
  cases hxv
  exact hv

/-- Filtering with a predicate false at `a` ignores where `a` was inserted. -/
theorem filter_orderedInsert_of_neg {α : Type} (r : α → α → Prop) [DecidableRel r]
    (p : α → Bool) (a : α) (hpa : p a = false) :
    ∀ s : List α, (List.orderedInsert r a s).filter p = s.filter p := by
  intro s
  induction s with
  | nil => simp [List.orderedInsert, hpa]
  | cons b s ih =>
    by_cases hr : r a b
    · simp [List.orderedInsert, hr, List.filter_cons, hpa]
    · simp only [List.orderedInsert, if_neg hr, List.filter_cons]
      cases hpb : p b <;> simp [hpb, ih]

/-- Filtering with a predicate true at `a`, false on everything `a` is
inserted past, keeps `a` first. -/
theorem filter_orderedInsert_of_pos {α : Type} (r : α → α → Prop) [DecidableRel r]
    (p : α → Bool) (a : α) (hpa : p a = true)
    (h : ∀ b, ¬ r a b → p b = false) :
    ∀ s : List α, (List.orderedInsert r a s).filter p = a :: s.filter p := by
  intro s
  induction s with
  | nil => simp [List.orderedInsert, hpa]
  | cons b s ih =>
    by_cases hr : r a b
    · simp [List.orderedInsert, hr, List.filter_cons, hpa]
    · have hpb : p b = false := h b hr
      simp only [List.orderedInsert, if_neg hr, List.filter_cons, hpb]
      simp [ih]

/-- Stability of insertion sort, phrased through filters: a predicate that
is an equivalence class of the sorting relation selects the same
subsequence before and after sorting. -/
theorem filter_insertionSort {α : Type} (r : α → α → Prop) [DecidableRel r]
    (p : α → Bool) (h : ∀ a b, p a = true → ¬ r a b → p b = false) :
    ∀ s : List α, (List.insertionSort r s).filter p = s.filter p := by
  intro s
  induction s with
  | nil => rfl
  | cons a s ih =>
    show (List.orderedInsert r a (List.insertionSort r s)).filter p = _
    cases hpa : p a
    · rw [filter_orderedInsert_of_neg r p a hpa, ih, List.filter_cons, hpa]
      simp
    · rw [filter_orderedInsert_of_pos r p a hpa (fun b hrab => h a b hpa hrab), ih,
        List.filter_cons, hpa]
      simp

/-- Filtering the valid-tag pairs for one parsed version and taking names is
the same as filtering the raw names for that parsed version. -/
theorem map_fst_filter_validTags {V : Type} [DecidableEq V]
    (parse : String → Option V) (v : V) (l : List String) :
    ((l.filterMap fun t => (parse t).map fun v => (t, v)).filter
        fun x => decide (x.2 = v)).map Prod.fst
      = l.filter fun t => decide (parse t = some v) := by
  induction l with
  | nil => rfl
  | cons t l ih =>
    cases h : parse t with
    | none =>
      have hfalse : ¬ (parse t = some v) := by
        rw [h]
        intro hc
        exact Option.noConfusion hc
      simp [List.filterMap_cons, h, List.filter_cons, ih, hfalse]
    | some w =>
      by_cases hw : w = v
      · subst hw
        simp [List.filterMap_cons, h, List.filter_cons, ih]
      · have hfalse : ¬ (parse t = some v) := by
          rw [h]
          intro hc
          exact hw (Option.some.inj hc)
        simp [List.filterMap_cons, h, List.filter_cons, ih, hw, hfalse]

/-- `C4`: the version index returns exactly the parseable subset of the tag
names (as a permutation of that subset, every entry parsing successfully),
ordered descending by parsed version, and stably: the entries of any single
parsed version keep their original relative order, expressed by filtering
on that version. -/
theorem get_sorted_tags_spec {V : Type} [LinearOrder V]
    (parse : String → Option V) (l : List String) :
    ((get_sorted_tags parse l).Perm (l.filter fun t => (parse t).isSome))
      ∧ (∀ t ∈ get_sorted_tags parse l, (parse t).isSome)
      ∧ ((get_sorted_tags parse l).Pairwise fun a b =>
          ∀ va vb, parse a = some va → parse b = some vb → vb ≤ va)
      ∧ ∀ v : V, (get_sorted_tags parse l).filter (fun t => parse t = some v)
          = l.filter fun t => parse t = some v := by
  classical
  set r : (String × V) → (String × V) → Prop := fun a b => b.2 ≤ a.2 with hr
  set valid := l.filterMap fun t => (parse t).map fun v => (t, v) with hvalid
  have hperm : (get_sorted_tags parse l).Perm (l.filter fun t => (parse t).isSome) := by
    have h1 : (List.insertionSort r valid).Perm valid := List.perm_insertionSort r valid
    have h2 := h1.map Prod.fst
    rw [map_fst_validTags] at h2
    exact h2
  refine ⟨hperm, ?_, ?_, ?_⟩
  · intro t ht
    have := hperm.mem_iff.1 ht
    exact (List.mem_filter.1 this).2
  · haveI : IsTotal (String × V) r := ⟨fun a b => le_total b.2 a.2⟩
    haveI : IsTrans (String × V) r := ⟨fun a b c hab hbc => le_trans hbc hab⟩
    have hs : (List.insertionSort r valid).Pairwise r :=
      List.sorted_insertionSort r valid
    have hmem : ∀ x ∈ List.insertionSort r valid, parse x.1 = some x.2 := by
      intro x hx
      exact mem_validTags ((List.mem_insertionSort r).1 hx)
    have hp : (List.insertionSort r valid).Pairwise fun a b =>
        ∀ va vb, parse a.1 = some va → parse b.1 = some vb → vb ≤ va := by
      refine hs.imp_of_mem ?_
      intro a b ha hb hab
      intro va vb hva hvb
      have h1 := hmem a ha
      have h2 := hmem b hb
      rw [h1] at hva
      rw [h2] at hvb
      cases Option.some.inj hva
      cases Option.some.inj hvb
      exact hab
    show ((List.insertionSort r valid).map Prod.fst).Pairwise _
    rw [List.pairwise_map]
    exact hp
  · intro v
    have hmemv : ∀ x ∈ List.insertionSort r valid, parse x.1 = some x.2 := by
      intro x hx
      exact mem_validTags ((List.mem_insertionSort r).1 hx)
    have hmemv0 : ∀ x ∈ valid, parse x.1 = some x.2 := fun x hx => mem_validTags hx
    -- push the name-level filter to the pair level
    have step1 : (get_sorted_tags parse l).filter (fun t => parse t = some v)
        = ((List.insertionSort r valid).filter
            fun x => decide (x.2 = v)).map Prod.fst := by
      show ((List.insertionSort r valid).map Prod.fst).filter _ = _
      rw [List.filter_map]
      congr 1
      refine List.filter_congr ?_
      intro x hx
      have hpx := hmemv x hx
      simp only [Function.comp_apply, decide_eq_decide, hpx]
      constructor
      · intro h
        exact Option.some.inj h
      · intro h
        rw [h]
    have step3 : ((List.insertionSort r valid).filter fun x => decide (x.2 = v))
        = valid.filter fun x => decide (x.2 = v) := by
      refine filter_insertionSort r _ ?_ valid
      intro a b hpa hrab
      have hav : a.2 = v := of_decide_eq_true hpa
      have hlt : a.2 < b.2 := lt_of_not_le fun hle => hrab hle
      have : ¬ (b.2 = v) := by
        intro hbv
        rw [hav, hbv] at hlt
        exact lt_irrefl v hlt
      exact decide_eq_false this
    rw [step1, step3, hvalid, map_fst_filter_validTags parse v l]

/-- `C2`: the reconciliation engine follows the state-machine table exactly:
checkout without reset checks out the target directly; checkout with reset
checks out then force-resets to `origin/<target>` when that succeeds, else
to the target itself; pull with reset performs fetch plus hard reset to
`origin/<target>` and never a merge-pull; pull without reset performs a
standard merge-pull; checkout-then-pull checks out then pulls, or with
reset force-resets to `origin/<target>`. -/
theorem performUpdate_state_machine (t : String) :
    (∀ ok, performUpdateGitOps "checkout" t false ok = [GitCmd.checkout t])
      ∧ performUpdateGitOps "checkout" t true true
          = [GitCmd.checkout t, GitCmd.fetch, GitCmd.resetHard ("origin/" ++ t)]
      ∧ performUpdateGitOps "checkout" t true false
          = [GitCmd.checkout t, GitCmd.resetHard t]
      ∧ (∀ ok, performUpdateGitOps "pull" t true ok
          = [GitCmd.fetch, GitCmd.resetHard ("origin/" ++ t)])
      ∧ (∀ ok, GitCmd.pull ∉ performUpdateGitOps "pull" t true ok)
      ∧ (∀ ok, performUpdateGitOps "pull" t false ok = [GitCmd.pull])
      ∧ (∀ ok, performUpdateGitOps "checkout_pull" t false ok
          = [GitCmd.checkout t, GitCmd.pull])
      ∧ (∀ ok, performUpdateGitOps "checkout_pull" t true ok
          = [GitCmd.checkout t, GitCmd.resetHard ("origin/" ++ t)]) := by
  refine ⟨fun ok => rfl, rfl, rfl, fun ok => rfl, fun ok => ?_, fun ok => rfl,
    fun ok => rfl, fun ok => rfl⟩
  simp [performUpdateGitOps]

/-- `C9`: with a tracking reference and a behind count of zero, no
tracked-branch menu entry is produced in non-reset mode, and exactly one
is produced in reset mode, labeled without a behind count. -/
theorem branchPullChoice_zero_behind (name : String) :
    branchPullChoice (some name) true 0 false = none
      ∧ branchPullChoice (some name) true 0 true
          = some { title := "★ Pull " ++ name, action := "pull", target := name } := by
  constructor
  · simp [branchPullChoice]
  · simp [branchPullChoice]

/-- `C10`: when `uv` is not on the PATH, the pyproject manifest is neither
snapshotted nor diffed — whatever its contents before and after — and the
requirements comparison still runs. -/
theorem no_uv_skips_pyproject (before after : ManifestState)
    (choice : Option String) :
    (dependencyDiff false before after choice).pyprojectCompared = false
      ∧ (dependencyDiff false before after choice).pyprojectChanged = false
      ∧ (dependencyDiff false before after choice).reqsCompared = true :=
  ⟨rfl, rfl, rfl⟩

/-- `C3` counterexample: with HEAD on branch "main" and the single tag
"v1.0" pointing at HEAD, the menu-building pass takes "main" as the
current tag although no such tag points at HEAD, while the spec's
disambiguation rule (and the detector) take "v1.0". -/
theorem menuCurrentTag_ignores_membership :
    menuCurrentTag (some "main") ["v1.0"] = some "main"
      ∧ specCurrentTagRule false "main" ["v1.0"] = some "v1.0"
      ∧ menuCurrentTag (some "main") ["v1.0"]
          ≠ specCurrentTagRule false "main" ["v1.0"] := by
  refine ⟨rfl, ?_, ?_⟩ <;> decide

/-- `C3` amended: the detector's current-tag choice follows the spec's
disambiguation rule, but the menu-building pass uses the active branch
name unconditionally whenever HEAD is on a branch and any tag points at
HEAD, and the first HEAD-pointing tag only when HEAD is detached. -/
theorem currentTag_selection (isDetached : Bool) (branch : String)
    (headTags : List String) :
    detectorCurrentTag isDetached branch headTags
        = specCurrentTagRule isDetached branch headTags
      ∧ menuCurrentTag (some branch) headTags
          = (if headTags.isEmpty then none else some branch)
      ∧ menuCurrentTag none headTags
          = (if headTags.isEmpty then none else headTags.head?) := by
  refine ⟨rfl, ?_, ?_⟩ <;> by_cases h : headTags.isEmpty <;> simp [menuCurrentTag, h]

/-- `C5` counterexample: with `requirements.txt` absent at the before
point and readable at the after point, the plain-text comparison is not
skipped — it reports a change. -/
theorem reqs_absent_still_compared :
    (dependencyDiff false ⟨none, none⟩ ⟨none, some (some ["a"])⟩ none).reqsCompared
        = true
      ∧ (dependencyDiff false ⟨none, none⟩ ⟨none, some (some ["a"])⟩ none).reqsChanged
          = true := by
  refine ⟨rfl, ?_⟩
  decide

/-- `C5` amended: the structured-manifest comparison runs exactly when the
before snapshot exists and reports a change exactly when both snapshots
exist and differ (absence or unreadability at either point skips it); its
being skipped never blocks the plain-text comparison, which is prevented
only by a reported pyproject change that the user does not answer with
"requirements"; an absent or unreadable plain-text listing is treated as
an empty snapshot rather than skipped. -/
theorem manifest_skip_policy (uv : Bool) (b a : ManifestState)
    (choice : Option String) :
    ((dependencyDiff uv b a choice).pyprojectCompared = (snapshotDeps uv b).isSome)
      ∧ ((dependencyDiff uv b a choice).pyprojectChanged
          = ((snapshotDeps uv b).isSome && ((snapshotDepsAfter a).isSome
              && !(decide (snapshotDeps uv b = snapshotDepsAfter a)))))
      ∧ ((dependencyDiff uv b a choice).reqsCompared
          = (!(dependencyDiff uv b a choice).pyprojectChanged
              || decide (choice = some "requirements")))
      ∧ snapshotReqs ⟨b.pyprojectDeps, none⟩ = []
      ∧ snapshotReqs ⟨b.pyprojectDeps, some none⟩ = [] := by
  refine ⟨?_, ?_, ?_, rfl, rfl⟩ <;>
    rcases h1 : snapshotDeps uv b with _ | bd <;>
      rcases h2 : snapshotDepsAfter a with _ | ad <;>
        simp only [dependencyDiff, h1, h2, Option.isSome_none, Option.isSome_some,
          Bool.false_and, Bool.true_and, Bool.and_false, Bool.and_true] <;>
          (try split_ifs) <;> simp_all

/-- `C6` counterexample: when the maintenance pass (`git gc --auto`)
fails after a successful action, neither manifest-diff stage executes. -/
theorem gc_failure_skips_diff :
    (perform_update_steps true false false ⟨none, none⟩ ⟨none, none⟩ none).1
        = [UpdateStep.gitAction, UpdateStep.gcAuto]
      ∧ UpdateStep.pyprojectDiff
          ∉ (perform_update_steps true false false ⟨none, none⟩ ⟨none, none⟩ none).1
      ∧ UpdateStep.reqsDiff
          ∉ (perform_update_steps true false false ⟨none, none⟩ ⟨none, none⟩ none).1 := by
  refine ⟨rfl, ?_, ?_⟩ <;> decide

/-- `C6` amended: after a successful action the maintenance pass always
runs and, when it succeeds, the manifest diff reporting follows; but the
maintenance call is not guarded, so its failure raises out of
`perform_update` before any diff stage, and only the `try`/`except` in
`check_remote_updates` keeps the run terminating normally. -/
theorem maintenance_after_action (uv : Bool) (b a : ManifestState)
    (choice : Option String) :
    UpdateStep.gcAuto ∈ (perform_update_steps true true uv b a choice).1
      ∧ UpdateStep.pyprojectDiff ∈ (perform_update_steps true true uv b a choice).1
      ∧ (perform_update_steps true true uv b a choice).2 = true
      ∧ (perform_update_steps true false uv b a choice)
          = ([UpdateStep.gitAction, UpdateStep.gcAuto], false)
      ∧ (check_remote_updates_catch (perform_update_steps true false uv b a choice)).2
          = true := by
  refine ⟨?_, ?_, ?_, rfl, rfl⟩ <;>
    by_cases hr : (dependencyDiff uv b a choice).reqsCompared <;>
      simp [perform_update_steps, hr]

/-- `C8`: structured-manifest dependency arrays that are equal as
multisets but ordered differently compare as unchanged, while a
plain-text listing with the same lines in a different order compares as
changed, in the same run. -/
theorem structured_vs_plaintext_ordering (l₁ l₂ r₁ r₂ : List String)
    (choice : Option String) (hperm : l₁.Perm l₂) (hneq : r₁ ≠ r₂) :
    dependencyDiff true ⟨some (some l₁), some (some r₁)⟩
        ⟨some (some l₂), some (some r₂)⟩ choice
      = { pyprojectCompared := true, pyprojectChanged := false,
          reqsCompared := true, reqsChanged := true } := by
  haveI hA : IsAntisymm String (fun a b => a ≤ b) :=
    ⟨fun a b h1 h2 => le_antisymm h1 h2⟩
  haveI hT : IsTotal String (fun a b => a ≤ b) := ⟨fun a b => le_total a b⟩
  haveI hTr : IsTrans String (fun a b => a ≤ b) :=
    ⟨fun a b c h1 h2 => le_trans h1 h2⟩
  have hsort : l₁.insertionSort (fun a b => a ≤ b)
      = l₂.insertionSort (fun a b => a ≤ b) :=
    List.eq_of_perm_of_sorted
      ((List.perm_insertionSort _ l₁).trans
        (hperm.trans (List.perm_insertionSort _ l₂).symm))
      (List.sorted_insertionSort _ l₁) (List.sorted_insertionSort _ l₂)
  have hb : snapshotDeps true ⟨some (some l₁), some (some r₁)⟩
      = some (l₁.insertionSort fun a b => a ≤ b) := rfl
  have ha : snapshotDepsAfter ⟨some (some l₂), some (some r₂)⟩
      = some (l₂.insertionSort fun a b => a ≤ b) := rfl
  simp only [dependencyDiff, hb, ha, hsort]
  simp [snapshotReqs, hneq]

/-- `C8` witness at the spec's own example. -/
theorem structured_vs_plaintext_ordering_witness :
    (["a", "b"] : List String).Perm ["b", "a"]
      ∧ (["a", "b"] : List String) ≠ ["b", "a"]
      ∧ dependencyDiff true ⟨some (some ["a", "b"]), some (some ["a", "b"])⟩
          ⟨some (some ["b", "a"]), some (some ["b", "a"])⟩ none
          = { pyprojectCompared := true, pyprojectChanged := false,
              reqsCompared := true, reqsChanged := true } :=
  ⟨List.Perm.swap "b" "a" [], by decide,
    structured_vs_plaintext_ordering ["a", "b"] ["b", "a"] ["a", "b"] ["b", "a"]
      none (List.Perm.swap "b" "a" []) (by decide)⟩

/-- `C7` counterexample: fifteen valid tags, none equal to the current
tag, produce ten tag entries in the menu, not the claimed eleven: the
window of "other" tags is taken from the first ten of the descending
order, which still contains the newest tag. -/
theorem menu_caps_at_ten :
    (menuTagChoices false (get_sorted_tags parseVer3
        ["0.0.1", "0.0.2", "0.0.3", "0.0.4", "0.0.5", "0.0.6", "0.0.7", "0.0.8",
         "0.0.9", "0.0.10", "0.0.11", "0.0.12", "0.0.13", "0.0.14", "0.0.15"])).length
      = 10 := by
  decide

/-- `C7` amended: the tag portion of the menu is the newest valid tag
followed by the next up-to-nine valid tags in descending order (the
newest being excluded from the ten-entry window by equality), hence at
most ten tag entries. -/
theorem menuTagChoices_structure (isNewer : Bool) (latest : String)
    (rest : List String) (h : latest ∉ rest) :
    menuTagChoices isNewer (latest :: rest)
        = { title := latest ++ (if isNewer then " (Latest)" else ""),
            action := "checkout", target := latest }
            :: (rest.take 9).map
                (fun t => { title := t, action := "checkout", target := t })
      ∧ (menuTagChoices isNewer (latest :: rest)).length = 1 + min 9 rest.length
      ∧ (menuTagChoices isNewer (latest :: rest)).length ≤ 10 := by
  have hfilter : ((latest :: rest).take 10).filter (fun t => decide (t ≠ latest))
      = rest.take 9 := by
    rw [List.take_succ_cons, List.filter_cons]
    simp only [decide_not, ne_eq, decide_eq_true_eq]
    rw [if_neg (by simp)]
    apply List.filter_eq_self.mpr
    intro t ht
    have htr : t ∈ rest := List.take_subset 9 rest ht
    have : t ≠ latest := fun he => h (he ▸ htr)
    simpa using this
  have hmain : menuTagChoices isNewer (latest :: rest)
      = { title := latest ++ (if isNewer then " (Latest)" else ""),
          action := "checkout", target := latest }
          :: (rest.take 9).map
              (fun t => { title := t, action := "checkout", target := t }) := by
    show ({ title := latest ++ (if isNewer then " (Latest)" else ""),
            action := "checkout", target := latest } : MenuChoice)
          :: (((latest :: rest).take 10).filter fun t => decide (t ≠ latest)).map
              (fun t => { title := t, action := "checkout", target := t }) = _
    rw [hfilter]
  refine ⟨hmain, ?_, ?_⟩
  · rw [hmain]
    simp [List.length_take, Nat.add_comm]
  · rw [hmain]
    simp only [List.length_cons, List.length_map, List.length_take]
    have := Nat.min_le_left 9 rest.length
    omega

/-- `C7` amended witness: two valid tags, newest not among the rest. -/
theorem menuTagChoices_structure_witness :
    ("b" : String) ∉ (["a"] : List String)
      ∧ menuTagChoices false ["b", "a"]
          = [{ title := "b", action := "checkout", target := "b" },
             { title := "a", action := "checkout", target := "a" }]
      ∧ (menuTagChoices false ["b", "a"]).length = 2 := by
  have h := menuTagChoices_structure false "b" ["a"] (by decide)
  refine ⟨by decide, ?_, ?_⟩
  · have h1 := h.1
    simpa using h1
  · have h2 := h.2.1
    simpa using h2

/-- `C1` counterexample: a repository simultaneously one commit behind its
tracked branch and checked out at tag "1.2.0" with a strictly newer valid
tag "1.3.0" available yields only the branch candidate — the detector
returns at the first applicable category instead of emitting one
candidate per category. -/
theorem detector_single_candidate :
    has_remote_updates parseVer3
        ⟨false, "main", true, "origin/main", 1, ["1.2.0"], ["1.2.0", "1.3.0"],
          none, none⟩
        = some ⟨"branch", "main", "origin/main", some 1, "1 commits behind"⟩
      ∧ (get_sorted_tags parseVer3 ["1.2.0", "1.3.0"]).head? = some "1.3.0"
      ∧ detectorCurrentTag false "main" ["1.2.0"] = some "1.2.0"
      ∧ parseVer3 "1.2.0" = some 1002000
      ∧ parseVer3 "1.3.0" = some 1003000
      ∧ has_remote_updates parseVer3
          ⟨false, "main", true, "origin/main", 1, ["1.2.0"], ["1.2.0", "1.3.0"],
            none, none⟩
          ≠ some ⟨"tag", "1.2.0", "1.3.0", none, "1.2.0 -> 1.3.0"⟩ := by
  refine ⟨?_, ?_, ?_, ?_, ?_, ?_⟩ <;> decide

/-- `C1` amended: the detector evaluates the categories in a fixed priority
order and returns at most one candidate, the first applicable; in
particular whenever the active branch is behind its tracking reference,
the branch candidate alone is returned, regardless of any newer tag. -/
theorem detector_branch_priority {V : Type} [LinearOrder V]
    (parse : String → Option V) (st : RepoState)
    (h1 : st.isDetached = false) (h2 : st.hasTracking = true)
    (h3 : 0 < st.behindTracking) :
    has_remote_updates parse st
      = some ⟨"branch", st.activeBranch, st.trackingName, some st.behindTracking,
          toString st.behindTracking ++ " commits behind"⟩ := by
  simp [has_remote_updates, h1, h2, h3]

/-- `C1` amended witness at a concrete repository state. -/
theorem detector_branch_priority_witness :
    (⟨false, "dev", true, "origin/dev", 2, [], [], none, none⟩ : RepoState).isDetached
        = false
      ∧ (⟨false, "dev", true, "origin/dev", 2, [], [], none, none⟩ : RepoState).hasTracking
          = true
      ∧ 0 < (⟨false, "dev", true, "origin/dev", 2, [], [], none, none⟩ : RepoState).behindTracking
      ∧ has_remote_updates parseVer3
          ⟨false, "dev", true, "origin/dev", 2, [], [], none, none⟩
          = some ⟨"branch", "dev", "origin/dev", some 2, "2 commits behind"⟩ := by
  refine ⟨rfl, rfl, by decide, ?_⟩
  rw [detector_branch_priority parseVer3
    ⟨false, "dev", true, "origin/dev", 2, [], [], none, none⟩ rfl rfl (by decide)]
  decide

end Gitupdt
